import Mathlib

/-!
Verification of the swarm-construction RL environments
(`rl-training/env.py`, class `SwarmConstructionEnv`, called the *global*
variant below, and `rl-training/text_conditioned_env.py`, class
`TextConditioned3DEnv`, the *text-conditioned* variant).

Modelling conventions:
* Grid cells hold the float values 0.0 / 1.0 only (they are zeroed at reset
  and only ever written with 1.0), and every read tests `> 0` or `== 0`,
  so occupancy is embedded as `Bool`.
* A 3D numpy array of side `N` is embedded as a total function
  `ℕ → ℕ → ℕ → Bool`; only indices below `N` are ever accessed.
* Positions are `ℕ` triples `(x, y, z)`; every decrement in the source is
  guarded by a positivity test, so natural subtraction is exact.
* Scores are exact rationals; the float NaN produced by numpy's `0/0` is
  embedded as `Option.none`.
* Real-valued fields (the scent field) are embedded over `ℝ`.
-/

/-- Integer agent position `(x, y, z)` as stored in `agent_positions[i]`. -/
abbrev Pos3 := ℕ × ℕ × ℕ

/-- Occupancy array of side `N` (`self.grid`, `self.target`). -/
abbrev Grid3 := ℕ → ℕ → ℕ → Bool

/-- Occupancy of a grid at a position triple (the test `arr[x,y,z] > 0`). -/
def cellOcc (g : Grid3) (p : Pos3) : Bool :=
  g p.1 p.2.1 p.2.2

/-- Write 1.0 at one cell (`self.grid[x, y, z] = 1.0`). -/
def setCell (g : Grid3) (p : Pos3) : Grid3 :=
  fun x y z => if x = p.1 ∧ y = p.2.1 ∧ z = p.2.2 then true else g x y z

/-- Per-agent mutable state: `agent_positions[i]` and `agent_has_block[i]`. -/
structure AgentState where
  pos : Pos3
  hasBlock : Bool
deriving DecidableEq

/-- One agent's action inside `step` (identical code in both variants):
the `if action == 0 ... elif action == 7` chain.  Codes: 0 forward (−x),
2 backward (+x), 1 right (+z), 3 left (−z), 4 up (+y, needs support),
5 down (−y), 6 place block, 7 pickup block; any other code is a no-op.
Returns the updated grid and agent state. -/
def applyAction (N : ℕ) (g : Grid3) (s : AgentState) (a : ℕ) :
    Grid3 × AgentState :=
  let x := s.pos.1
  let y := s.pos.2.1
  let z := s.pos.2.2
  if a = 0 then
    if 0 < x then (g, { s with pos := (x - 1, y, z) }) else (g, s)
  else if a = 2 then
    if x < N - 1 then (g, { s with pos := (x + 1, y, z) }) else (g, s)
  else if a = 1 then
    if z < N - 1 then (g, { s with pos := (x, y, z + 1) }) else (g, s)
  else if a = 3 then
    if 0 < z then (g, { s with pos := (x, y, z - 1) }) else (g, s)
  else if a = 4 then
    if y < N - 1 ∧ (y = 0 ∨ g x (y - 1) z = true) then
      (g, { s with pos := (x, y + 1, z) })
    else (g, s)
  else if a = 5 then
    if 0 < y then (g, { s with pos := (x, y - 1, z) }) else (g, s)
  else if a = 6 then
    if s.hasBlock then (setCell g s.pos, { s with hasBlock := false })
    else (g, s)
  else if a = 7 then
    if s.hasBlock = false ∧ cellOcc g s.pos = false then
      (g, { s with hasBlock := true })
    else (g, s)
  else (g, s)

/-- Sequential resolution of one step's actions: the
`for i in range(self.num_agents)` loop.  Agents are processed in ascending
index order and each sees the grid mutations of earlier agents. -/
def resolveActions (N : ℕ) (g : Grid3) :
    List (AgentState × ℕ) → Grid3 × List AgentState
  | [] => (g, [])
  | (s, a) :: rest =>
    let r := applyAction N g s a
    let rec' := resolveActions N r.1 rest
    (rec'.1, r.2 :: rec'.2)

/-- Spawn position of one agent in `reset` (identical code in both
variants), from the random draws `edge ∈ {0,1,2,3}` and
`r = np.random.randint(0, grid_size) ∈ [0, grid_size)`. -/
def spawnPos (N : ℕ) (edge r : ℕ) : Pos3 :=
  if edge = 0 then (0, 0, r)
  else if edge = 1 then (r, 0, N - 1)
  else if edge = 2 then (N - 1, 0, r)
  else (r, 0, 0)

/-- Position lies in the cubic domain `[0, N)³`. -/
def inBounds (N : ℕ) (p : Pos3) : Prop :=
  p.1 < N ∧ p.2.1 < N ∧ p.2.2 < N

instance (N : ℕ) (p : Pos3) : Decidable (inBounds N p) := by
  unfold inBounds; infer_instance

/-- All cell coordinates of the cubic domain of side `N`. -/
def cells (N : ℕ) : Finset Pos3 :=
  Finset.range N ×ˢ (Finset.range N ×ˢ Finset.range N)

/-- Count of cells occupied in both grid and target:
`np.sum((grid > 0) & (target > 0))`. -/
def correctCount (N : ℕ) (g t : Grid3) : ℕ :=
  ((cells N).filter fun p => cellOcc g p = true ∧ cellOcc t p = true).card

/-- Count of occupied target cells: `np.sum(target > 0)` (equal to
`np.sum(target)` since target values are 0.0/1.0). -/
def targetCount (N : ℕ) (t : Grid3) : ℕ :=
  ((cells N).filter fun p => cellOcc t p = true).card

/-- Match score of `TextConditioned3DEnv._get_match_score`: guarded with
`if np.sum(self.target) == 0: return 0.0`, otherwise `correct / total`. -/
def matchScoreText (N : ℕ) (g t : Grid3) : ℚ :=
  if targetCount N t = 0 then 0
  else (correctCount N g t : ℚ) / (targetCount N t : ℚ)

/-- Match score computed inline in `SwarmConstructionEnv.step`:
`np.sum((grid>0)&(target>0)) / np.sum(target>0)` with no guard.  A zero
denominator is numpy's float `0/0 = nan`, embedded as `none`. -/
def matchScoreGlobal (N : ℕ) (g t : Grid3) : Option ℚ :=
  if targetCount N t = 0 then none
  else some ((correctCount N g t : ℚ) / (targetCount N t : ℚ))

/-- Environment state shared by both variants' `step` (the text variant
additionally carries the scent field and text, which `step` does not
touch).  `agents` is the list of per-agent states in index order. -/
structure EnvState where
  grid : Grid3
  agents : List AgentState
  target : Grid3
  stepCount : ℕ

/-- Episode length cap `self.max_steps = 150` (both variants). -/
def maxSteps : ℕ := 150

/-- Common body of `step`: bump the counter, resolve all actions in order,
then report done as `step_count >= max_steps or <score condition>`.
`sdone` is the variant's match-score termination test, evaluated on the
post-action grid and the target. -/
def stepCore (N : ℕ) (sdone : Grid3 → Grid3 → Bool) (st : EnvState)
    (acts : List ℕ) : EnvState × Bool :=
  let r := resolveActions N st.grid (st.agents.zip acts)
  let st' : EnvState := ⟨r.1, r.2, st.target, st.stepCount + 1⟩
  (st', decide (maxSteps ≤ st'.stepCount) || sdone r.1 st.target)

/-- Termination test of the text variant: `match_score > 0.85`. -/
def scoreExceedsText (N : ℕ) (g t : Grid3) : Bool :=
  decide ((17 / 20 : ℚ) < matchScoreText N g t)

/-- Termination test of the global variant: `match_score > 0.8`, where the
score is NaN (`none`) for an empty target, and any comparison with NaN is
false. -/
def scoreExceedsGlobal (N : ℕ) (g t : Grid3) : Bool :=
  (matchScoreGlobal N g t).elim false fun q => decide ((4 / 5 : ℚ) < q)

/-- `TextConditioned3DEnv.step`. -/
def stepText (N : ℕ) : EnvState → List ℕ → EnvState × Bool :=
  stepCore N (scoreExceedsText N)

/-- `SwarmConstructionEnv.step`. -/
def stepGlobal (N : ℕ) : EnvState → List ℕ → EnvState × Bool :=
  stepCore N (scoreExceedsGlobal N)

/-- Iterate a step function over a list of action maps, ignoring the done
flag (a caller may keep stepping). -/
def stepsBy (f : EnvState → List ℕ → EnvState × Bool) :
    EnvState → List (List ℕ) → EnvState
  | st, [] => st
  | st, a :: rest => stepsBy f (f st a).1 rest

/-- Run one episode: step until the done flag is reported (or the action
plan is exhausted), as the training loop does. -/
def runEpisode (f : EnvState → List ℕ → EnvState × Bool) :
    EnvState → List (List ℕ) → EnvState
  | st, [] => st
  | st, a :: rest =>
    let r := f st a
    if r.2 then r.1 else runEpisode f r.1 rest

/-- The all-empty occupancy array (`np.zeros((N, N, N))` as occupancy). -/
def emptyGrid : Grid3 := fun _ _ _ => false

/-- Occupied target cells as a finite set of coordinates. -/
def targetsOf (N : ℕ) (t : Grid3) : Finset Pos3 :=
  (cells N).filter fun p => cellOcc t p = true

/-- Coordinate triple cast to `ℤ`. -/
def castZ (p : Pos3) : ℤ × ℤ × ℤ :=
  ((p.1 : ℤ), (p.2.1 : ℤ), (p.2.2 : ℤ))

/-- Feature points of `scipy.ndimage.distance_transform_edt(1 - target)`:
for every cell, the distance is taken to the nearest element of this set.
With at least one background pixel (an occupied target cell) these are the
target cells themselves.  With no background pixel (empty target) scipy
leaves every feature at its initial marker value −1 in each coordinate, so
all distances are measured to the virtual corner `(−1, −1, −1)`. -/
def featurePts (N : ℕ) (t : Grid3) : Finset (ℤ × ℤ × ℤ) :=
  if (targetsOf N t).Nonempty then (targetsOf N t).image castZ
  else {(-1, -1, -1)}

/-- Squared Euclidean distance from a cell to a feature point. -/
def sqTo (p : Pos3) (q : ℤ × ℤ × ℤ) : ℕ :=
  (((p.1 : ℤ) - q.1) ^ 2 + ((p.2.1 : ℤ) - q.2.1) ^ 2 +
    ((p.2.2 : ℤ) - q.2.2) ^ 2).toNat

/-- Squared distance-transform value at a cell: squared distance to the
nearest feature point (`distance_map[p] ** 2`, exact over `ℕ`). -/
def sqDist (N : ℕ) (t : Grid3) (p : Pos3) : ℕ :=
  (featurePts N t).inf'
    (by
      unfold featurePts
      split
      · exact Finset.Nonempty.image (by assumption) castZ
      · exact Finset.singleton_nonempty _)
    (sqTo p)

/-- Squared maximum of the distance map over the grid
(`np.max(distance_map) ** 2`). -/
def maxSqDist (N : ℕ) (t : Grid3) : ℕ :=
  (cells N).sup (sqDist N t)

/-- Scent field before smoothing: `1.0 - distance_map / max_dist` when
`max_dist > 0`, else a verbatim copy of the target (the values of
`self.target`, i.e. 1.0 at occupied cells and 0.0 elsewhere). -/
noncomputable def preField (N : ℕ) (t : Grid3) (p : Pos3) : ℝ :=
  if 0 < maxSqDist N t then
    1 - Real.sqrt (sqDist N t p) / Real.sqrt (maxSqDist N t)
  else if cellOcc t p then 1 else 0

/-- Normalizer of the sampled Gaussian kernel of
`gaussian_filter(..., sigma=0.5)`: the weights are
`exp(-k² / (2·0.5²)) = exp(-2k²)` for `k = -2..2` (`truncate=4.0` gives
radius `int(4.0·0.5 + 0.5) = 2`), divided by their sum. -/
noncomputable def gaussZ : ℝ :=
  1 + 2 * Real.exp (-2) + 2 * Real.exp (-8)

/-- Normalized 1D Gaussian kernel weight at offset `k`. -/
noncomputable def gw (k : ℤ) : ℝ :=
  Real.exp (-2 * (k : ℝ) ^ 2) / gaussZ

/-- 3D kernel weight: product of the three separable 1D weights. -/
noncomputable def kw (o : ℤ × ℤ × ℤ) : ℝ :=
  gw o.1 * gw o.2.1 * gw o.2.2

/-- Offsets reached by the radius-2 kernel. -/
def offBox : Finset (ℤ × ℤ × ℤ) :=
  Finset.Icc (-2) 2 ×ˢ (Finset.Icc (-2) 2 ×ˢ Finset.Icc (-2) 2)

/-- Boundary handling of `gaussian_filter`'s default mode `reflect`
(`d c b a | a b c d | d c b a`), for a single reflection: this matches
scipy for every index the radius-2 kernel can reach when `N ≥ 2`. -/
def reflIdx (N : ℕ) (i : ℤ) : ℕ :=
  (if i < 0 then -1 - i else if (N : ℤ) ≤ i then 2 * (N : ℤ) - 1 - i
   else i).toNat

/-- Cell read by the kernel at offset `o` around `p`, with per-axis
reflection. -/
def reflCell (N : ℕ) (p : Pos3) (o : ℤ × ℤ × ℤ) : Pos3 :=
  (reflIdx N ((p.1 : ℤ) + o.1), reflIdx N ((p.2.1 : ℤ) + o.2.1),
    reflIdx N ((p.2.2 : ℤ) + o.2.2))

/-- The generated scent field: `gaussian_filter(pre_field, sigma=0.5)`.
scipy filters the three axes one after another; because each 1D pass
reflects only its own axis, the composition equals this single sum of the
product kernel over the radius-2 offset box with per-axis reflected
indices. -/
noncomputable def scentField (N : ℕ) (t : Grid3) (p : Pos3) : ℝ :=
  ∑ o ∈ offBox, kw o * preField N t (reflCell N p o)

/-- Integer coordinates of a cell plus an offset. -/
def addZ (w v : ℤ × ℤ × ℤ) : ℤ × ℤ × ℤ :=
  (w.1 + v.1, w.2.1 + v.2.1, w.2.2 + v.2.2)

/-- Integer coordinates lie inside `[0, N)³` (the bounds test of
`_get_local_obs`). -/
def inGridZ (N : ℕ) (w : ℤ × ℤ × ℤ) : Prop :=
  0 ≤ w.1 ∧ w.1 < (N : ℤ) ∧ 0 ≤ w.2.1 ∧ w.2.1 < (N : ℤ) ∧
    0 ≤ w.2.2 ∧ w.2.2 < (N : ℤ)

instance (N : ℕ) (w : ℤ × ℤ × ℤ) : Decidable (inGridZ N w) := by
  unfold inGridZ; infer_instance

/-- Integer coordinates truncated back to a cell. -/
def toCell (w : ℤ × ℤ × ℤ) : Pos3 :=
  (w.1.toNat, w.2.1.toNat, w.2.2.toNat)

/-- One entry of a `3×3×3` local patch of `TextConditioned3DEnv.
_get_local_obs`, indexed by the offset `d ∈ [-1,1]³` from the agent
position: the field value at the world cell if it is in bounds, else the
zero padding. -/
noncomputable def localPatch (N : ℕ) (f : Pos3 → ℝ) (pos : Pos3)
    (d : ℤ × ℤ × ℤ) : ℝ :=
  if inGridZ N (addZ (castZ pos) d) then f (toCell (addZ (castZ pos) d))
  else 0

/-- Occupancy as the float stored in the grid array. -/
def gridVal (g : Grid3) (p : Pos3) : ℝ :=
  if cellOcc g p then 1 else 0

/-- The `local_grid` patch of `_get_local_obs`. -/
noncomputable def localGridObs (N : ℕ) (g : Grid3) (pos : Pos3)
    (d : ℤ × ℤ × ℤ) : ℝ :=
  localPatch N (gridVal g) pos d

/-- The `local_scent` patch of `_get_local_obs`. -/
noncomputable def localScentObs (N : ℕ) (t : Grid3) (pos : Pos3)
    (d : ℤ × ℤ × ℤ) : ℝ :=
  localPatch N (scentField N t) pos d

/-- Occupancy grid translated by an integer offset `v`: cells shifted in
from outside the original domain are empty. -/
def shiftGrid (v : ℤ × ℤ × ℤ) (g : Grid3) : Grid3 :=
  fun x y z =>
    if 0 ≤ (x : ℤ) - v.1 ∧ 0 ≤ (y : ℤ) - v.2.1 ∧ 0 ≤ (z : ℤ) - v.2.2 then
      g ((x : ℤ) - v.1).toNat ((y : ℤ) - v.2.1).toNat ((z : ℤ) - v.2.2).toNat
    else false

/-- Target-relevant state of `TextConditioned3DEnv` across `reset`:
the occupancy grid, step counter, current text, target and scent field
(agent respawning is independent of the target and omitted here). -/
structure TextState where
  grid : Grid3
  stepCount : ℕ
  currentText : String
  target : Grid3
  scent : Pos3 → ℝ

/-- Target built by `load_training_pair`: start from a zeroed array and
set each listed voxel whose three coordinates lie in `[0, grid_size)`. -/
def loadTargetVoxels (N : ℕ) (vs : List (ℤ × ℤ × ℤ)) : Grid3 :=
  fun x y z =>
    vs.any fun v =>
      decide (v.1 = (x : ℤ) ∧ v.2.1 = (y : ℤ) ∧ v.2.2 = (z : ℤ) ∧
        x < N ∧ y < N ∧ z < N)

/-- `TextConditioned3DEnv.reset(text, voxels)`: zero the grid and the
counter; only when `text` and `voxels` are both present and truthy (a
non-empty string and a non-empty list — Python `if text and voxels:`)
load the pair and regenerate the scent field, otherwise silently keep the
previous text, target and scent field. -/
noncomputable def textReset (N : ℕ) (st : TextState) (text : Option String)
    (voxels : Option (List (ℤ × ℤ × ℤ))) : TextState :=
  match text, voxels with
  | some s, some vs =>
    if s = "" ∨ vs = [] then
      { st with grid := emptyGrid, stepCount := 0 }
    else
      { grid := emptyGrid, stepCount := 0, currentText := s,
        target := loadTargetVoxels N vs,
        scent := scentField N (loadTargetVoxels N vs) }
  | _, _ => { st with grid := emptyGrid, stepCount := 0 }

/-- Shape of the array bound to `self.grid` by `SwarmConstructionEnv.reset`
(line 122): `np.zeros((self.grid_size, self.grid_size))` — two axes. -/
def globalResetGridShape (N : ℕ) : List ℕ := [N, N]

/-- Shape of `SwarmConstructionEnv.target` (`_make_random_target` builds
`np.zeros((grid_size, grid_size, grid_size))` and only writes into it). -/
def globalTargetShape (N : ℕ) : List ℕ := [N, N, N]

/-- Shape of `TextConditioned3DEnv.grid` after `reset`: `reset` mutates the
3D array from `__init__` in place (`self.grid.fill(0)`), keeping
`(grid_size, grid_size, grid_size)`. -/
def textResetGridShape (N : ℕ) : List ℕ := [N, N, N]

/-- Shape of `TextConditioned3DEnv.target` (allocated 3D in `__init__`,
refilled in place by `load_training_pair`). -/
def textTargetShape (N : ℕ) : List ℕ := [N, N, N]

/-- Counterexample target for the scent-field monotonicity claim, on a
grid of side 16: a solid 5×5×5 block `[0,4]³` with its centre `(2,2,2)`
removed, plus one isolated voxel at `(13,13,13)`. -/
def tgtC6 : Grid3 :=
  fun x y z =>
    decide ((x ≤ 4 ∧ y ≤ 4 ∧ z ≤ 4 ∧ ¬(x = 2 ∧ y = 2 ∧ z = 2)) ∨
      (x = 13 ∧ y = 13 ∧ z = 13))

/-- Single-voxel target at the origin (grid of side 8). -/
def tgtC8 : Grid3 :=
  fun x y z => decide (x = 0 ∧ y = 0 ∧ z = 0)

/-- The same target shifted by `(1, 0, 0)`. -/
def tgtC8s : Grid3 :=
  fun x y z => decide (x = 1 ∧ y = 0 ∧ z = 0)

/-- A concrete environment state used by the witnesses: one agent holding
a block at the origin of an 8³ grid whose target is the origin voxel and
whose grid has one block at `(7, 0, 7)`. -/
def stW : EnvState :=
  { grid := setCell emptyGrid (7, 0, 7), agents := [⟨(0, 0, 0), true⟩],
    target := tgtC8, stepCount := 0 }

/-- All agents of a list sit inside `[0, N)³`. -/
def agentsInBounds (N : ℕ) (l : List AgentState) : Prop :=
  ∀ a ∈ l, inBounds N a.pos

instance (N : ℕ) (l : List AgentState) : Decidable (agentsInBounds N l) :=
  List.decidableBAll _ l

/-- Every occupied target cell is occupied in the grid. -/
def coversTarget (N : ℕ) (g t : Grid3) : Prop :=
  ∀ p ∈ cells N, cellOcc t p = true → cellOcc g p = true

instance (N : ℕ) (g t : Grid3) : Decidable (coversTarget N g t) :=
  Finset.decidableDforallFinset

/-- The global variant's match score is a defined value strictly above
`0.8` (numpy's NaN from an empty target compares false). -/
def globalScoreHigh (N : ℕ) (g t : Grid3) : Prop :=
  targetCount N t ≠ 0 ∧
    (4 / 5 : ℚ) < (correctCount N g t : ℚ) / (targetCount N t : ℚ)

instance (N : ℕ) (g t : Grid3) : Decidable (globalScoreHigh N g t) := by
  unfold globalScoreHigh; infer_instance

/-- A concrete text-environment state with a nonzero target, used to show
that `reset` without target information keeps it. -/
noncomputable def stC9 : TextState :=
  { grid := emptyGrid, stepCount := 7, currentText := "stale",
    target := tgtC8, scent := scentField 8 tgtC8 }

example : (applyAction 8 emptyGrid ⟨(0, 0, 0), true⟩ 5).2.pos = (0, 0, 0) := by
  decide

example : cellOcc (applyAction 8 emptyGrid ⟨(2, 0, 3), true⟩ 6).1 (2, 0, 3) = true := by
  decide

example : matchScoreText 2 emptyGrid emptyGrid = 0 := by decide

example : matchScoreGlobal 2 emptyGrid emptyGrid = none := by decide

/-! ### Dynamics lemmas -/

/-- One action never moves an agent out of `[0, N)³`. -/
theorem applyAction_inBounds (N : ℕ) (g : Grid3) (s : AgentState) (a : ℕ)
    (h : inBounds N s.pos) : inBounds N (applyAction N g s a).2.pos := by
  rcases s with ⟨⟨x, y, z⟩, b⟩
  obtain ⟨hx, hy, hz⟩ := h
  simp only [applyAction]
  split_ifs <;> simp_all [inBounds] <;> omega

/-- One action never clears an occupied grid cell. -/
theorem applyAction_grid_mono (N : ℕ) (g : Grid3) (s : AgentState) (a : ℕ)
    (x y z : ℕ) (h : g x y z = true) :
    (applyAction N g s a).1 x y z = true := by
  rcases s with ⟨⟨px, py, pz⟩, b⟩
  simp only [applyAction]
  split_ifs <;> simp_all [setCell] <;> split_ifs <;> simp_all

/-- Sequential resolution keeps every agent in bounds. -/
theorem resolveActions_inBounds (N : ℕ) :
    ∀ (l : List (AgentState × ℕ)) (g : Grid3),
      (∀ sa ∈ l, inBounds N sa.1.pos) →
      agentsInBounds N (resolveActions N g l).2
  | [], g, _ => by intro a ha; simp [resolveActions] at ha
  | (s, a) :: rest, g, h => by
    intro a' ha'
    simp only [resolveActions, List.mem_cons] at ha'
    rcases ha' with rfl | ha'
    · exact applyAction_inBounds N g s a (h (s, a) (by simp))
    · exact resolveActions_inBounds N rest _
        (fun sa hsa => h sa (List.mem_cons_of_mem _ hsa)) a' ha'

/-- Sequential resolution never clears an occupied grid cell. -/
theorem resolveActions_grid_mono (N : ℕ) :
    ∀ (l : List (AgentState × ℕ)) (g : Grid3) (x y z : ℕ),
      g x y z = true → (resolveActions N g l).1 x y z = true
  | [], g, x, y, z, h => h
  | (s, a) :: rest, g, x, y, z, h =>
    resolveActions_grid_mono N rest _ x y z
      (applyAction_grid_mono N g s a x y z h)

/-- Iterated steps of either variant keep every agent in bounds. -/
theorem stepsBy_inBounds (N : ℕ) (sd : Grid3 → Grid3 → Bool) :
    ∀ (plans : List (List ℕ)) (st : EnvState),
      agentsInBounds N st.agents →
      agentsInBounds N (stepsBy (stepCore N sd) st plans).agents
  | [], st, h => h
  | acts :: rest, st, h => by
    apply stepsBy_inBounds N sd rest
    refine resolveActions_inBounds N (st.agents.zip acts) st.grid ?_
    intro sa hsa
    exact h sa.1 (List.of_mem_zip hsa).1

/-- Iterated steps of either variant never clear an occupied cell. -/
theorem stepsBy_grid_mono (N : ℕ) (sd : Grid3 → Grid3 → Bool) :
    ∀ (plans : List (List ℕ)) (st : EnvState) (x y z : ℕ),
      st.grid x y z = true →
      (stepsBy (stepCore N sd) st plans).grid x y z = true
  | [], _, _, _, _, h => h
  | acts :: rest, st, x, y, z, h =>
    stepsBy_grid_mono N sd rest _ x y z
      (resolveActions_grid_mono N (st.agents.zip acts) st.grid x y z h)

/-! ### Claim C1 -/

/-- C1: in both variants, every agent position spawned by `reset` lies in
`[0, grid_size)³`, and any sequence of `step` calls (each applying one
action map) keeps every agent position in `[0, grid_size)³`: no action
ever moves a position out of bounds. -/
theorem c1_positions_stay_in_bounds :
    (∀ N edge r, 0 < N → r < N → inBounds N (spawnPos N edge r)) ∧
    (∀ N (st : EnvState) (plans : List (List ℕ)),
      agentsInBounds N st.agents →
      agentsInBounds N (stepsBy (stepText N) st plans).agents ∧
      agentsInBounds N (stepsBy (stepGlobal N) st plans).agents) := by
  constructor
  · intro N edge r hN hr
    unfold spawnPos inBounds
    split_ifs <;> simp <;> omega
  · intro N st plans h
    exact ⟨stepsBy_inBounds N _ plans st h, stepsBy_inBounds N _ plans st h⟩

/-- Witness for C1 at a concrete instance. -/
theorem c1_witness :
    (0 < 8 ∧ 3 < 8 ∧ agentsInBounds 8 stW.agents) ∧
    inBounds 8 (spawnPos 8 1 3) ∧
    agentsInBounds 8 (stepsBy (stepText 8) stW [[2], [4], [6]]).agents :=
  ⟨⟨by decide, by decide, by decide⟩,
    c1_positions_stay_in_bounds.1 8 1 3 (by decide) (by decide),
    (c1_positions_stay_in_bounds.2 8 stW [[2], [4], [6]] (by decide)).1⟩

/-! ### Claim C5 -/

/-- C5: place-block (action 6) while holding writes the agent's current
cell and clears the holding flag, and is a no-op otherwise; pickup-block
(action 7) while not holding on an unoccupied cell sets the holding flag
and leaves the whole grid unchanged, and is a no-op otherwise — in
particular when the cell is already occupied.  Both variants run this
exact code. -/
theorem c5_place_pickup (N : ℕ) (g : Grid3) (s : AgentState) :
    (s.hasBlock = true →
      applyAction N g s 6 = (setCell g s.pos, { s with hasBlock := false })) ∧
    (s.hasBlock = false → applyAction N g s 6 = (g, s)) ∧
    (s.hasBlock = false → cellOcc g s.pos = false →
      applyAction N g s 7 = (g, { s with hasBlock := true })) ∧
    (s.hasBlock = true → applyAction N g s 7 = (g, s)) ∧
    (cellOcc g s.pos = true → applyAction N g s 7 = (g, s)) := by
  rcases s with ⟨⟨x, y, z⟩, b⟩
  refine ⟨fun hb => ?_, fun hb => ?_, fun hb hc => ?_, fun hb => ?_,
    fun hc => ?_⟩ <;> cases b <;> simp_all [applyAction, cellOcc]

/-- Witness for C5: a concrete place, pickup, and the two no-ops. -/
theorem c5_witness :
    applyAction 8 emptyGrid ⟨(2, 0, 3), true⟩ 6 =
      (setCell emptyGrid (2, 0, 3), ⟨(2, 0, 3), false⟩) ∧
    applyAction 8 emptyGrid ⟨(2, 0, 3), false⟩ 6 =
      (emptyGrid, ⟨(2, 0, 3), false⟩) ∧
    applyAction 8 emptyGrid ⟨(2, 0, 3), false⟩ 7 =
      (emptyGrid, ⟨(2, 0, 3), true⟩) ∧
    applyAction 8 (setCell emptyGrid (2, 0, 3)) ⟨(2, 0, 3), false⟩ 7 =
      (setCell emptyGrid (2, 0, 3), ⟨(2, 0, 3), false⟩) :=
  ⟨(c5_place_pickup 8 emptyGrid ⟨(2, 0, 3), true⟩).1 rfl,
    (c5_place_pickup 8 emptyGrid ⟨(2, 0, 3), false⟩).2.1 rfl,
    (c5_place_pickup 8 emptyGrid ⟨(2, 0, 3), false⟩).2.2.1 rfl (by decide),
    (c5_place_pickup 8 (setCell emptyGrid (2, 0, 3))
      ⟨(2, 0, 3), false⟩).2.2.2.2 (by decide)⟩

/-! ### Claim C10 -/

/-- C10: within an episode, cell occupancy is monotone — once a grid cell
is occupied, it stays occupied across any further `step` calls of either
variant (no action clears a cell). -/
theorem c10_occupancy_monotone (N : ℕ) (st : EnvState)
    (plans : List (List ℕ)) (x y z : ℕ) (h : st.grid x y z = true) :
    (stepsBy (stepText N) st plans).grid x y z = true ∧
    (stepsBy (stepGlobal N) st plans).grid x y z = true :=
  ⟨stepsBy_grid_mono N _ plans st x y z h,
    stepsBy_grid_mono N _ plans st x y z h⟩

/-- Witness for C10: the block at `(7,0,7)` survives three steps in which
the agent moves, places and tries to pick up. -/
theorem c10_witness :
    stW.grid 7 0 7 = true ∧
    (stepsBy (stepText 8) stW [[6], [7], [0]]).grid 7 0 7 = true ∧
    (stepsBy (stepGlobal 8) stW [[6], [7], [0]]).grid 7 0 7 = true :=
  ⟨by decide, c10_occupancy_monotone 8 stW [[6], [7], [0]] 7 0 7 (by decide)⟩

/-! ### Claim C4 -/

/-- Episode steps never push the counter above `maxSteps`: each step adds
exactly one, and a step that reaches `maxSteps` reports done, ending the
episode. -/
theorem runEpisode_stepCount_le (N : ℕ) (sd : Grid3 → Grid3 → Bool) :
    ∀ (plans : List (List ℕ)) (st : EnvState),
      st.stepCount < maxSteps →
      (runEpisode (stepCore N sd) st plans).stepCount ≤ maxSteps
  | [], st, h => le_of_lt h
  | acts :: rest, st, h => by
    show (if (stepCore N sd st acts).2 then (stepCore N sd st acts).1
      else runEpisode (stepCore N sd) (stepCore N sd st acts).1 rest).stepCount
        ≤ maxSteps
    have hc : (stepCore N sd st acts).1.stepCount = st.stepCount + 1 := rfl
    split_ifs with hd
    · omega
    · apply runEpisode_stepCount_le N sd rest
      rw [hc]
      rcases lt_or_ge (st.stepCount + 1) maxSteps with hlt | hge
      · exact hlt
      · exfalso
        apply hd
        show (decide (maxSteps ≤ st.stepCount + 1) || _) = true
        simp [hge]

/-- C4: in both variants `step` increments the step counter exactly once,
reports done exactly when the incremented counter has reached
`max_steps = 150` or the match score strictly exceeds the variant's
threshold (0.85 text-conditioned, 0.8 global — false for the global
variant's NaN score on an empty target), and an episode started at
counter 0 can never drive the counter beyond 150. -/
theorem c4_step_counter_and_done :
    (∀ N (st : EnvState) (acts : List ℕ),
      (stepText N st acts).1.stepCount = st.stepCount + 1 ∧
      (stepGlobal N st acts).1.stepCount = st.stepCount + 1 ∧
      ((stepText N st acts).2 = true ↔
        maxSteps ≤ st.stepCount + 1 ∨
          (17 / 20 : ℚ) <
            matchScoreText N (stepText N st acts).1.grid st.target) ∧
      ((stepGlobal N st acts).2 = true ↔
        maxSteps ≤ st.stepCount + 1 ∨
          globalScoreHigh N (stepGlobal N st acts).1.grid st.target)) ∧
    (∀ N (st : EnvState) (plans : List (List ℕ)),
      st.stepCount = 0 →
      (runEpisode (stepText N) st plans).stepCount ≤ maxSteps ∧
      (runEpisode (stepGlobal N) st plans).stepCount ≤ maxSteps) := by
  constructor
  · intro N st acts
    refine ⟨rfl, rfl, ?_, ?_⟩
    · have hgrid : (stepText N st acts).1.grid =
        (resolveActions N st.grid (st.agents.zip acts)).1 := rfl
      rw [hgrid]
      show (decide _ || scoreExceedsText N _ _) = true ↔ _
      simp only [Bool.or_eq_true, decide_eq_true_eq, scoreExceedsText]
    · have hgrid : (stepGlobal N st acts).1.grid =
        (resolveActions N st.grid (st.agents.zip acts)).1 := rfl
      rw [hgrid]
      show (decide _ || scoreExceedsGlobal N _ _) = true ↔ _
      simp only [Bool.or_eq_true, decide_eq_true_eq, scoreExceedsGlobal,
        matchScoreGlobal, globalScoreHigh]
      rcases eq_or_ne (targetCount N st.target) 0 with h0 | h0
      · simp [h0]
      · simp [h0]
  · intro N st plans h0
    constructor <;>
      exact runEpisode_stepCount_le N _ plans st
        (by rw [h0]; norm_num [maxSteps])

/-- Witness for C4 at a concrete state and plan. -/
theorem c4_witness :
    stW.stepCount = 0 ∧
    (stepText 8 stW [6]).1.stepCount = stW.stepCount + 1 ∧
    (runEpisode (stepText 8) stW [[6], [0]]).stepCount ≤ maxSteps :=
  ⟨rfl, (c4_step_counter_and_done.1 8 stW [6]).1,
    (c4_step_counter_and_done.2 8 stW [[6], [0]] rfl).1⟩

/-! ### Claim C2 -/

/-- Cells counted as correct form a subset of the occupied target cells. -/
theorem correctCount_le_targetCount (N : ℕ) (g t : Grid3) :
    correctCount N g t ≤ targetCount N t := by
  apply Finset.card_le_card
  intro p hp
  simp only [Finset.mem_filter] at hp ⊢
  exact ⟨hp.1, hp.2.2⟩

/-- With a nonempty target, the score ratio is 1 exactly on coverage. -/
theorem matchScoreText_eq_one_iff (N : ℕ) (g t : Grid3)
    (h0 : targetCount N t ≠ 0) :
    (matchScoreText N g t = 1 ↔ coversTarget N g t) := by
  have hT : (0 : ℚ) < (targetCount N t : ℚ) := by
    exact_mod_cast Nat.pos_of_ne_zero h0
  rw [matchScoreText, if_neg h0, div_eq_one_iff_eq (ne_of_gt hT),
    Nat.cast_inj]
  constructor
  · intro hcard p hp hpt
    have hsub : ((cells N).filter fun p =>
        cellOcc g p = true ∧ cellOcc t p = true) ⊆
        (cells N).filter fun p => cellOcc t p = true := by
      intro q hq
      simp only [Finset.mem_filter] at hq ⊢
      exact ⟨hq.1, hq.2.2⟩
    have heq := Finset.eq_of_subset_of_card_le hsub (le_of_eq hcard.symm)
    have hpmem : p ∈ (cells N).filter fun p => cellOcc t p = true := by
      simp only [Finset.mem_filter]; exact ⟨hp, hpt⟩
    rw [← heq] at hpmem
    simp only [Finset.mem_filter] at hpmem
    exact hpmem.2.1
  · intro hcov
    unfold correctCount targetCount
    congr 1
    apply Finset.filter_congr
    intro p hp
    constructor
    · intro hb; exact hb.2
    · intro hb; exact ⟨hcov p hp hb, hb⟩

/-- Amended C2: in the text-conditioned variant the match score always
lies in `[0, 1]`, equals 1 exactly when every occupied target cell is
occupied in the grid (for a nonempty target), and is the defined value 0
for an empty target.  The global variant computes the same defined score
for a nonempty target, but for an empty target its unguarded `0/0`
produces NaN (`none`), not 0.0. -/
theorem c2_match_score_amended :
    (∀ N (g t : Grid3),
      0 ≤ matchScoreText N g t ∧ matchScoreText N g t ≤ 1) ∧
    (∀ N (g t : Grid3), targetCount N t ≠ 0 →
      (matchScoreText N g t = 1 ↔ coversTarget N g t)) ∧
    (∀ N (g t : Grid3), targetCount N t = 0 → matchScoreText N g t = 0) ∧
    (∀ N (g t : Grid3), targetCount N t ≠ 0 →
      matchScoreGlobal N g t = some (matchScoreText N g t)) ∧
    (∀ N (g t : Grid3), targetCount N t = 0 →
      matchScoreGlobal N g t = none) := by
  refine ⟨?_, matchScoreText_eq_one_iff, ?_, ?_, ?_⟩
  · intro N g t
    unfold matchScoreText
    split_ifs with h0
    · norm_num
    · have hT : (0 : ℚ) < (targetCount N t : ℚ) := by
        exact_mod_cast Nat.pos_of_ne_zero h0
      constructor
      · positivity
      · rw [div_le_one hT]
        exact_mod_cast correctCount_le_targetCount N g t
  · intro N g t h0
    simp [matchScoreText, h0]
  · intro N g t h0
    simp [matchScoreGlobal, matchScoreText, h0]
  · intro N g t h0
    simp [matchScoreGlobal, h0]

set_option maxRecDepth 100000 in
/-- Witness for C2's amended statement at a concrete instance. -/
theorem c2_witness :
    (targetCount 8 tgtC8 ≠ 0 ∧
      coversTarget 8 (setCell emptyGrid (0, 0, 0)) tgtC8) ∧
    (0 ≤ matchScoreText 8 (setCell emptyGrid (0, 0, 0)) tgtC8 ∧
      matchScoreText 8 (setCell emptyGrid (0, 0, 0)) tgtC8 ≤ 1) ∧
    (matchScoreText 8 (setCell emptyGrid (0, 0, 0)) tgtC8 = 1 ↔
      coversTarget 8 (setCell emptyGrid (0, 0, 0)) tgtC8) ∧
    matchScoreGlobal 8 (setCell emptyGrid (0, 0, 0)) tgtC8 =
      some (matchScoreText 8 (setCell emptyGrid (0, 0, 0)) tgtC8) :=
  ⟨⟨by decide, by decide⟩,
    c2_match_score_amended.1 8 (setCell emptyGrid (0, 0, 0)) tgtC8,
    c2_match_score_amended.2.1 8 (setCell emptyGrid (0, 0, 0)) tgtC8
      (by decide),
    c2_match_score_amended.2.2.2.1 8 (setCell emptyGrid (0, 0, 0)) tgtC8
      (by decide)⟩

set_option maxRecDepth 100000 in
/-- Counterexample to C2 as stated: in the global variant an empty target
yields numpy's `0/0` NaN (embedded `none`), not the defined value 0.0. -/
theorem c2_counterexample :
    matchScoreGlobal 8 emptyGrid emptyGrid = none := by
  decide

/-! ### Claim C3 -/

/-- C3 (evaluation at the failing input): after `reset` the
text-conditioned variant's grid and target have the identical cubic shape
for every grid size, but `SwarmConstructionEnv.reset` rebinds `self.grid`
to the 2-axis array `np.zeros((grid_size, grid_size))`, which does not
match the 3-axis target shape at the default `grid_size = 8`. -/
theorem c3_reset_shapes :
    (∀ N, textResetGridShape N = textTargetShape N) ∧
    globalResetGridShape 8 ≠ globalTargetShape 8 :=
  ⟨fun _ => rfl, by decide⟩

/-! ### Claim C9 -/

/-- Amended C9: calling the text-conditioned `reset` without target
information is not surfaced as an error — it silently zeroes the grid and
the step counter and keeps the stale target, scent field and text from
the previous episode (the same happens for a falsy empty string or empty
voxel list). -/
theorem c9_reset_without_target_is_silent (N : ℕ) (st : TextState) :
    (textReset N st none none).target = st.target ∧
    (textReset N st none none).scent = st.scent ∧
    (textReset N st none none).currentText = st.currentText ∧
    (textReset N st none none).grid = emptyGrid ∧
    (textReset N st none none).stepCount = 0 ∧
    (textReset N st (some "") (some [(0, 0, 0)])).target = st.target ∧
    (textReset N st (some "a cube") (some [])).target = st.target :=
  ⟨rfl, rfl, rfl, rfl, rfl, rfl, rfl⟩

/-- Counterexample to C9 as stated: on a concrete state with a stale
nonzero target, `reset()` with no target information returns a normal
state that silently reuses the stale target instead of surfacing a
configuration error. -/
theorem c9_counterexample :
    (textReset 8 stC9 none none).target = tgtC8 ∧
    (textReset 8 stC9 none none).stepCount = 0 ∧
    (textReset 8 stC9 none none).currentText = "stale" :=
  ⟨rfl, rfl, rfl⟩

/-! ### Scent-field lemmas -/

/-- The kernel normalizer is positive. -/
theorem gaussZ_pos : 0 < gaussZ := by
  unfold gaussZ
  positivity

/-- Each 1D kernel weight is positive. -/
theorem gw_pos (k : ℤ) : 0 < gw k :=
  div_pos (Real.exp_pos _) gaussZ_pos

/-- Each 3D kernel weight is positive. -/
theorem kw_pos (o : ℤ × ℤ × ℤ) : 0 < kw o :=
  mul_pos (mul_pos (gw_pos _) (gw_pos _)) (gw_pos _)

/-- The 1D kernel weights sum to 1 (they are normalized by their sum). -/
theorem sum_gw : ∑ k ∈ Finset.Icc (-2 : ℤ) 2, gw k = 1 := by
  have h : Finset.Icc (-2 : ℤ) 2 = {-2, -1, 0, 1, 2} := by decide
  have hZ : gaussZ ≠ 0 := ne_of_gt gaussZ_pos
  rw [h]
  norm_num [Finset.sum_insert, Finset.mem_insert, gw]
  field_simp [gaussZ]
  ring

/-- The 3D kernel weights over the radius-2 box sum to 1. -/
theorem sum_kw : ∑ o ∈ offBox, kw o = 1 := by
  unfold offBox kw
  rw [Finset.sum_product]
  have hbc : ∀ a : ℤ,
      ∑ bc ∈ Finset.Icc (-2 : ℤ) 2 ×ˢ Finset.Icc (-2 : ℤ) 2,
        gw a * gw bc.1 * gw bc.2 = gw a := by
    intro a
    rw [Finset.sum_product]
    have hc : ∀ b : ℤ,
        ∑ c ∈ Finset.Icc (-2 : ℤ) 2, gw a * gw b * gw c = gw a * gw b := by
      intro b
      rw [← Finset.mul_sum, sum_gw, mul_one]
    rw [Finset.sum_congr rfl fun b _ => hc b, ← Finset.mul_sum, sum_gw,
      mul_one]
  rw [Finset.sum_congr rfl fun a _ => hbc a, sum_gw]

/-- Membership in the cell domain is exactly in-bounds. -/
theorem mem_cells (N : ℕ) (p : Pos3) : p ∈ cells N ↔ inBounds N p := by
  rcases p with ⟨x, y, z⟩
  simp [cells, inBounds, Finset.mem_product]

/-- The distance-map value at any in-grid cell is at most the maximum. -/
theorem sqDist_le_max (N : ℕ) (t : Grid3) (p : Pos3) (hp : p ∈ cells N) :
    sqDist N t p ≤ maxSqDist N t :=
  Finset.le_sup hp

/-- Casting cells to integer triples is injective. -/
theorem castZ_inj (p q : Pos3) : castZ p = castZ q ↔ p = q := by
  rcases p with ⟨x, y, z⟩
  rcases q with ⟨a, b, c⟩
  simp [castZ, Prod.ext_iff]

/-- Zero squared distance to a feature point means equality. -/
theorem sqTo_eq_zero_iff (p : Pos3) (q : ℤ × ℤ × ℤ) :
    sqTo p q = 0 ↔ castZ p = q := by
  rcases p with ⟨x, y, z⟩
  rcases q with ⟨a, b, c⟩
  simp only [sqTo, castZ, Int.toNat_eq_zero, Prod.mk.injEq]
  constructor
  · intro h
    have hx : ((x : ℤ) - a) ^ 2 ≤ 0 := by
      nlinarith [sq_nonneg ((y : ℤ) - b), sq_nonneg ((z : ℤ) - c)]
    have hy : ((y : ℤ) - b) ^ 2 ≤ 0 := by
      nlinarith [sq_nonneg ((x : ℤ) - a), sq_nonneg ((z : ℤ) - c)]
    have hz : ((z : ℤ) - c) ^ 2 ≤ 0 := by
      nlinarith [sq_nonneg ((x : ℤ) - a), sq_nonneg ((y : ℤ) - b)]
    have hx' := le_antisymm hx (sq_nonneg _)
    have hy' := le_antisymm hy (sq_nonneg _)
    have hz' := le_antisymm hz (sq_nonneg _)
    rw [sq_eq_zero_iff, sub_eq_zero] at hx' hy' hz'
    exact ⟨hx', hy', hz'⟩
  · rintro ⟨rfl, rfl, rfl⟩
    simp

/-- The distance-map value vanishes exactly at feature points. -/
theorem sqDist_eq_zero_iff (N : ℕ) (t : Grid3) (p : Pos3) :
    sqDist N t p = 0 ↔ castZ p ∈ featurePts N t := by
  constructor
  · intro h
    have hle : (featurePts N t).inf' _ (sqTo p) ≤ 0 := le_of_eq h
    rw [Finset.inf'_le_iff] at hle
    obtain ⟨q, hq, hq0⟩ := hle
    have hq0' : sqTo p q = 0 := Nat.le_zero.mp hq0
    rw [sqTo_eq_zero_iff] at hq0'
    exact hq0' ▸ hq
  · intro h
    refine le_antisymm ?_ (Nat.zero_le _)
    calc sqDist N t p ≤ sqTo p (castZ p) := Finset.inf'_le _ h
    _ = 0 := (sqTo_eq_zero_iff p (castZ p)).mpr rfl

/-- The distance map is zero at occupied target cells. -/
theorem sqDist_target_zero (N : ℕ) (t : Grid3) (p : Pos3)
    (hp : p ∈ cells N) (ht : cellOcc t p = true) : sqDist N t p = 0 := by
  rw [sqDist_eq_zero_iff]
  have hmem : p ∈ targetsOf N t := Finset.mem_filter.mpr ⟨hp, ht⟩
  unfold featurePts
  rw [if_pos ⟨p, hmem⟩]
  exact Finset.mem_image_of_mem castZ hmem

/-- With a nonempty target, the distance map is at least 1 away from
target cells. -/
theorem sqDist_pos_of_nontarget (N : ℕ) (t : Grid3) (p : Pos3)
    (hne : (targetsOf N t).Nonempty) (ht : cellOcc t p = false) :
    1 ≤ sqDist N t p := by
  by_contra hlt
  push_neg at hlt
  have h0 : sqDist N t p = 0 := by omega
  rw [sqDist_eq_zero_iff] at h0
  unfold featurePts at h0
  rw [if_pos hne] at h0
  obtain ⟨q, hq, hqe⟩ := Finset.mem_image.mp h0
  rw [castZ_inj] at hqe
  subst hqe
  have := (Finset.mem_filter.mp hq).2
  rw [ht] at this
  exact Bool.false_ne_true this

/-- Single reflection keeps kernel-reachable indices in `[0, N)`. -/
theorem reflIdx_lt (N : ℕ) (x : ℕ) (o : ℤ) (h3 : 3 ≤ N) (hx : x < N)
    (ho1 : -2 ≤ o) (ho2 : o ≤ 2) : reflIdx N ((x : ℤ) + o) < N := by
  unfold reflIdx
  split_ifs <;> omega

/-- Kernel reads around an in-grid cell stay in-grid (for `N ≥ 3`). -/
theorem reflCell_mem (N : ℕ) (p : Pos3) (o : ℤ × ℤ × ℤ) (h3 : 3 ≤ N)
    (hp : inBounds N p) (ho : o ∈ offBox) : reflCell N p o ∈ cells N := by
  rcases p with ⟨x, y, z⟩
  rcases o with ⟨a, b, c⟩
  obtain ⟨hx, hy, hz⟩ := hp
  simp only [offBox, Finset.mem_product, Finset.mem_Icc] at ho
  rw [mem_cells]
  exact ⟨reflIdx_lt N x a h3 hx ho.1.1 ho.1.2,
    reflIdx_lt N y b h3 hy ho.2.1.1 ho.2.1.2,
    reflIdx_lt N z c h3 hz ho.2.2.1 ho.2.2.2⟩

/-- The pre-smoothing field is nonnegative on the grid. -/
theorem preField_nonneg (N : ℕ) (t : Grid3) (p : Pos3) (hp : p ∈ cells N) :
    0 ≤ preField N t p := by
  unfold preField
  split_ifs with hM hT
  · have hM' : (0 : ℝ) < Real.sqrt (maxSqDist N t) :=
      Real.sqrt_pos.mpr (by exact_mod_cast hM)
    have hle : Real.sqrt (sqDist N t p) ≤ Real.sqrt (maxSqDist N t) :=
      Real.sqrt_le_sqrt (by exact_mod_cast sqDist_le_max N t p hp)
    have := (div_le_one hM').mpr hle
    linarith
  · norm_num
  · norm_num

/-- The pre-smoothing field never exceeds 1. -/
theorem preField_le_one (N : ℕ) (t : Grid3) (p : Pos3) :
    preField N t p ≤ 1 := by
  unfold preField
  split_ifs with hM hT
  · have : (0 : ℝ) ≤ Real.sqrt (sqDist N t p) / Real.sqrt (maxSqDist N t) := by
      positivity
    linarith
  · norm_num
  · norm_num

/-- The smoothed scent field is nonnegative at in-grid cells. -/
theorem scentField_nonneg (N : ℕ) (t : Grid3) (p : Pos3) (h3 : 3 ≤ N)
    (hp : inBounds N p) : 0 ≤ scentField N t p :=
  Finset.sum_nonneg fun o ho =>
    mul_nonneg (le_of_lt (kw_pos o))
      (preField_nonneg N t _ (reflCell_mem N p o h3 hp ho))

/-- The smoothed scent field never exceeds 1. -/
theorem scentField_le_one (N : ℕ) (t : Grid3) (p : Pos3) :
    scentField N t p ≤ 1 := by
  calc scentField N t p ≤ ∑ o ∈ offBox, kw o * 1 :=
    Finset.sum_le_sum fun o _ =>
      mul_le_mul_of_nonneg_left (preField_le_one N t _)
        (le_of_lt (kw_pos o))
  _ = 1 := by simp [sum_kw]

/-- The pre-smoothing field is 1 exactly on occupied target cells. -/
theorem preField_target_one (N : ℕ) (t : Grid3) (p : Pos3)
    (hp : p ∈ cells N) (ht : cellOcc t p = true) : preField N t p = 1 := by
  by_cases hM : 0 < maxSqDist N t
  · rw [preField, if_pos hM, sqDist_target_zero N t p hp ht]
    simp
  · rw [preField, if_neg hM, if_pos ht]

/-- The pre-smoothing field is antitone in the distance-map value. -/
theorem preField_anti (N : ℕ) (t : Grid3) (p q : Pos3) (hN : 1 ≤ N)
    (hp : p ∈ cells N) (hq : q ∈ cells N)
    (hle : sqDist N t p ≤ sqDist N t q) :
    preField N t q ≤ preField N t p := by
  by_cases hM : 0 < maxSqDist N t
  · rw [preField, preField, if_pos hM, if_pos hM]
    have hM' : (0 : ℝ) < Real.sqrt (maxSqDist N t) :=
      Real.sqrt_pos.mpr (by exact_mod_cast hM)
    have hs : Real.sqrt (sqDist N t p) ≤ Real.sqrt (sqDist N t q) :=
      Real.sqrt_le_sqrt (by exact_mod_cast hle)
    have := (div_le_div_right hM').mpr hs
    linarith
  · have hM0 : maxSqDist N t = 0 := by omega
    have hall : ∀ r ∈ cells N, sqDist N t r = 0 := fun r hr =>
      Nat.le_zero.mp (hM0 ▸ sqDist_le_max N t r hr)
    have hne : (targetsOf N t).Nonempty := by
      by_contra hemp
      rw [Finset.not_nonempty_iff_eq_empty] at hemp
      have h000 : ((0, 0, 0) : Pos3) ∈ cells N :=
        (mem_cells _ _).mpr ⟨hN, hN, hN⟩
      have h0 := hall (0, 0, 0) h000
      rw [sqDist_eq_zero_iff] at h0
      unfold featurePts at h0
      rw [hemp, if_neg (by simp)] at h0
      simp [castZ] at h0
      exact absurd h0 (by decide)
    have htp : cellOcc t p = true := by
      cases hcell : cellOcc t p
      · have h1 := sqDist_pos_of_nontarget N t p hne hcell
        rw [hall p hp] at h1
        omega
      · rfl
    have htq : cellOcc t q = true := by
      cases hcell : cellOcc t q
      · have h1 := sqDist_pos_of_nontarget N t q hne hcell
        rw [hall q hq] at h1
        omega
      · rfl
    rw [preField_target_one N t p hp htp, preField_target_one N t q hq htq]

/-! ### Claim C6 -/

/-- Amended C6: all smoothed scent-field values lie in `[0, 1]`; the
pre-smoothing normalized field `1 - d/d_max` is antitone in the distance
to the nearest occupied target cell and equals 1 exactly at occupied
target cells.  (After the final Gaussian smoothing pass the target-cell
maximality is lost, see the counterexample.) -/
theorem c6_scent_amended :
    (∀ N (t : Grid3) (p : Pos3), 3 ≤ N → inBounds N p →
      0 ≤ scentField N t p ∧ scentField N t p ≤ 1) ∧
    (∀ N (t : Grid3) (p q : Pos3), 1 ≤ N → p ∈ cells N → q ∈ cells N →
      sqDist N t p ≤ sqDist N t q → preField N t q ≤ preField N t p) ∧
    (∀ N (t : Grid3) (p : Pos3), p ∈ cells N → cellOcc t p = true →
      preField N t p = 1) :=
  ⟨fun N t p h3 hp =>
    ⟨scentField_nonneg N t p h3 hp, scentField_le_one N t p⟩,
    preField_anti, preField_target_one⟩

set_option maxRecDepth 1000000 in
/-- Witness for C6's amended statement at a concrete instance. -/
theorem c6_witness :
    ((3 : ℕ) ≤ 8 ∧ inBounds 8 (0, 0, 0) ∧ ((0, 0, 0) : Pos3) ∈ cells 8 ∧
      ((5, 0, 0) : Pos3) ∈ cells 8 ∧
      sqDist 8 tgtC8 (0, 0, 0) ≤ sqDist 8 tgtC8 (5, 0, 0) ∧
      cellOcc tgtC8 (0, 0, 0) = true) ∧
    (0 ≤ scentField 8 tgtC8 (0, 0, 0) ∧ scentField 8 tgtC8 (0, 0, 0) ≤ 1) ∧
    preField 8 tgtC8 (5, 0, 0) ≤ preField 8 tgtC8 (0, 0, 0) ∧
    preField 8 tgtC8 (0, 0, 0) = 1 :=
  ⟨⟨by norm_num, by decide, by decide, by decide, by decide, by decide⟩,
    c6_scent_amended.1 8 tgtC8 (0, 0, 0) (by norm_num) (by decide),
    c6_scent_amended.2.1 8 tgtC8 (0, 0, 0) (5, 0, 0) (by norm_num)
      (by decide) (by decide) (by decide),
    c6_scent_amended.2.2 8 tgtC8 (0, 0, 0) (by decide) (by decide)⟩

/-- Numeric bound used below: `exp 2 < 7.389057`. -/
theorem exp_two_lt : Real.exp 2 < 7.389057 := by
  rw [show (2 : ℝ) = 1 + 1 by norm_num, Real.exp_add]
  nlinarith [Real.exp_pos 1, Real.exp_one_lt_d9]

/-- Numeric bound used below: `exp (-2) > 0.135`. -/
theorem exp_neg_two_gt : (0.135 : ℝ) < Real.exp (-2) := by
  rw [show (-2 : ℝ) = -(2 : ℝ) by norm_num, Real.exp_neg,
    inv_eq_one_div, lt_div_iff (Real.exp_pos 2)]
  nlinarith [exp_two_lt, Real.exp_pos 2]

/-- The kernel normalizer exceeds 1.27. -/
theorem gaussZ_gt : (1.27 : ℝ) < gaussZ := by
  unfold gaussZ
  nlinarith [Real.exp_pos (-8), exp_neg_two_gt]

/-- The centre 1D weight is the reciprocal normalizer. -/
theorem gw_zero : gw 0 = 1 / gaussZ := by
  unfold gw
  norm_num

/-- The centre 3D kernel weight is strictly below one half. -/
theorem kw_center_lt_half : kw ((0 : ℤ), (0 : ℤ), (0 : ℤ)) < 1 / 2 := by
  have hZ3 : (2 : ℝ) < gaussZ ^ 3 := by
    have hcube : (1.27 : ℝ) ^ 3 < gaussZ ^ 3 :=
      pow_lt_pow_left gaussZ_gt (by norm_num) (by norm_num)
    nlinarith [hcube]
  have hk : kw ((0 : ℤ), (0 : ℤ), (0 : ℤ)) = 1 / gaussZ ^ 3 := by
    show gw 0 * gw 0 * gw 0 = 1 / gaussZ ^ 3
    rw [gw_zero]
    ring
  rw [hk, div_lt_div_iff (by positivity) (by norm_num)]
  nlinarith [hZ3]

/-- Algebraic core of the counterexample: with centre weight below one
half, the bound for the target cell lies strictly below the value at the
hole cell. -/
theorem center_bound_lt (k s : ℝ) (hk : k < 1 / 2) (hs : 0 < s) :
    k + (1 - s) * (1 - k) < k * (1 - s) + (1 - k) := by
  nlinarith [mul_pos hs (show 0 < 1 / 2 - k by linarith)]

set_option maxRecDepth 100000 in
set_option maxHeartbeats 1000000 in
/-- Counterexample to C6 as stated: on a 16³ grid whose target is a solid
5×5×5 block with its centre `(2,2,2)` removed plus one isolated voxel at
`(13,13,13)`, the generated (smoothed) scent field is strictly larger at
the non-target cell `(2,2,2)` (distance 1 from its nearest target) than
at the occupied target cell `(13,13,13)` (distance 0). -/
theorem c6_counterexample :
    cellOcc tgtC6 (13, 13, 13) = true ∧
    sqDist 16 tgtC6 (13, 13, 13) = 0 ∧
    1 ≤ sqDist 16 tgtC6 (2, 2, 2) ∧
    scentField 16 tgtC6 (13, 13, 13) < scentField 16 tgtC6 (2, 2, 2) := by
  have hTmem : ((13, 13, 13) : Pos3) ∈ cells 16 :=
    (mem_cells _ _).mpr (by decide)
  have hTt : cellOcc tgtC6 (13, 13, 13) = true := by decide
  have hsqT : sqDist 16 tgtC6 (13, 13, 13) = 0 :=
    sqDist_target_zero 16 tgtC6 (13, 13, 13) hTmem hTt
  have hne : (targetsOf 16 tgtC6).Nonempty :=
    ⟨(13, 13, 13), Finset.mem_filter.mpr ⟨hTmem, hTt⟩⟩
  have hCnt : cellOcc tgtC6 (2, 2, 2) = false := by decide
  have hsqC_ge : 1 ≤ sqDist 16 tgtC6 (2, 2, 2) :=
    sqDist_pos_of_nontarget 16 tgtC6 (2, 2, 2) hne hCnt
  have h221 : ((2, 2, 1) : Pos3) ∈ targetsOf 16 tgtC6 :=
    Finset.mem_filter.mpr ⟨(mem_cells _ _).mpr (by decide), by decide⟩
  have hfp : castZ (2, 2, 1) ∈ featurePts 16 tgtC6 := by
    unfold featurePts
    rw [if_pos hne]
    exact Finset.mem_image_of_mem castZ h221
  have hsqC : sqDist 16 tgtC6 (2, 2, 2) = 1 := by
    refine le_antisymm ?_ hsqC_ge
    calc sqDist 16 tgtC6 (2, 2, 2) ≤ sqTo (2, 2, 2) (castZ (2, 2, 1)) :=
      Finset.inf'_le _ hfp
    _ = 1 := by decide
  have h15t : cellOcc tgtC6 (15, 15, 15) = false := by decide
  have h15mem : ((15, 15, 15) : Pos3) ∈ cells 16 :=
    (mem_cells _ _).mpr (by decide)
  obtain ⟨M, hMdef⟩ : ∃ m, maxSqDist 16 tgtC6 = m := ⟨_, rfl⟩
  have hM : 0 < M :=
    hMdef ▸ lt_of_lt_of_le (by norm_num)
      (le_trans (sqDist_pos_of_nontarget 16 tgtC6 (15, 15, 15) hne h15t)
        (sqDist_le_max 16 tgtC6 (15, 15, 15) h15mem))
  have hMr : (0 : ℝ) < Real.sqrt (M : ℝ) :=
    Real.sqrt_pos.mpr (by exact_mod_cast hM)
  have hTfacts : ∀ o ∈ offBox, o ≠ ((0 : ℤ), (0 : ℤ), (0 : ℤ)) →
      cellOcc tgtC6 (reflCell 16 (13, 13, 13) o) = false := by decide
  have hCfacts : ∀ o ∈ offBox, o ≠ ((0 : ℤ), (0 : ℤ), (0 : ℤ)) →
      inBounds 16 (reflCell 16 (2, 2, 2) o) ∧
      cellOcc tgtC6 (reflCell 16 (2, 2, 2) o) = true := by decide
  have h0mem : ((0 : ℤ), (0 : ℤ), (0 : ℤ)) ∈ offBox := by decide
  have hrT0 : reflCell 16 (13, 13, 13) (0, 0, 0) = (13, 13, 13) := by decide
  have hrC0 : reflCell 16 (2, 2, 2) (0, 0, 0) = (2, 2, 2) := by decide
  have hpre : ∀ p : Pos3, preField 16 tgtC6 p =
      1 - Real.sqrt (sqDist 16 tgtC6 p) / Real.sqrt (M : ℝ) := by
    intro p
    rw [preField, hMdef, if_pos hM]
  have hT0 : kw (0, 0, 0) *
      preField 16 tgtC6 (reflCell 16 (13, 13, 13) (0, 0, 0)) =
      kw (0, 0, 0) := by
    rw [hrT0, hpre, hsqT]
    simp
  have hC0 : kw (0, 0, 0) *
      preField 16 tgtC6 (reflCell 16 (2, 2, 2) (0, 0, 0)) =
      kw (0, 0, 0) * (1 - 1 / Real.sqrt (M : ℝ)) := by
    rw [hrC0, hpre, hsqC]
    norm_num
  have hTermBound : ∀ o ∈ offBox.erase ((0 : ℤ), (0 : ℤ), (0 : ℤ)),
      kw o * preField 16 tgtC6 (reflCell 16 (13, 13, 13) o) ≤
      kw o * (1 - 1 / Real.sqrt (M : ℝ)) := by
    intro o ho
    obtain ⟨honz, hob⟩ := Finset.mem_erase.mp ho
    have h1 : 1 ≤ sqDist 16 tgtC6 (reflCell 16 (13, 13, 13) o) :=
      sqDist_pos_of_nontarget 16 tgtC6 _ hne (hTfacts o hob honz)
    have hsq1 : (1 : ℝ) ≤
        Real.sqrt (sqDist 16 tgtC6 (reflCell 16 (13, 13, 13) o)) := by
      rw [show (1 : ℝ) = Real.sqrt 1 by simp]
      exact Real.sqrt_le_sqrt (by exact_mod_cast h1)
    rw [hpre]
    apply mul_le_mul_of_nonneg_left _ (le_of_lt (kw_pos o))
    have hdiv := (div_le_div_right hMr).mpr hsq1
    linarith
  have hCterm : ∀ o ∈ offBox.erase ((0 : ℤ), (0 : ℤ), (0 : ℤ)),
      kw o * preField 16 tgtC6 (reflCell 16 (2, 2, 2) o) = kw o := by
    intro o ho
    obtain ⟨honz, hob⟩ := Finset.mem_erase.mp ho
    obtain ⟨hmem', htrue⟩ := hCfacts o hob honz
    rw [preField_target_one 16 tgtC6 _ ((mem_cells _ _).mpr hmem') htrue,
      mul_one]
  have hsum_split := Finset.add_sum_erase offBox kw h0mem
  rw [sum_kw] at hsum_split
  have hsplitC : scentField 16 tgtC6 (2, 2, 2) =
      kw (0, 0, 0) * preField 16 tgtC6 (reflCell 16 (2, 2, 2) (0, 0, 0)) +
      ∑ o ∈ offBox.erase ((0 : ℤ), (0 : ℤ), (0 : ℤ)),
        kw o * preField 16 tgtC6 (reflCell 16 (2, 2, 2) o) :=
    (Finset.add_sum_erase offBox
      (fun o => kw o * preField 16 tgtC6 (reflCell 16 (2, 2, 2) o))
      h0mem).symm
  have hsplitT : scentField 16 tgtC6 (13, 13, 13) =
      kw (0, 0, 0) *
        preField 16 tgtC6 (reflCell 16 (13, 13, 13) (0, 0, 0)) +
      ∑ o ∈ offBox.erase ((0 : ℤ), (0 : ℤ), (0 : ℤ)),
        kw o * preField 16 tgtC6 (reflCell 16 (13, 13, 13) o) :=
    (Finset.add_sum_erase offBox
      (fun o => kw o * preField 16 tgtC6 (reflCell 16 (13, 13, 13) o))
      h0mem).symm
  have hSC : scentField 16 tgtC6 (2, 2, 2) =
      kw (0, 0, 0) * (1 - 1 / Real.sqrt (M : ℝ)) + (1 - kw (0, 0, 0)) := by
    rw [hsplitC, hC0, Finset.sum_congr rfl hCterm]
    linarith
  have hST : scentField 16 tgtC6 (13, 13, 13) ≤
      kw (0, 0, 0) +
      (1 - 1 / Real.sqrt (M : ℝ)) * (1 - kw (0, 0, 0)) := by
    rw [hsplitT, hT0]
    have hle := Finset.sum_le_sum hTermBound
    have hfac : ∑ o ∈ offBox.erase ((0 : ℤ), (0 : ℤ), (0 : ℤ)),
        kw o * (1 - 1 / Real.sqrt (M : ℝ)) =
        (1 - kw (0, 0, 0)) * (1 - 1 / Real.sqrt (M : ℝ)) := by
      rw [← Finset.sum_mul]
      have herase : ∑ o ∈ offBox.erase ((0 : ℤ), (0 : ℤ), (0 : ℤ)), kw o =
          1 - kw (0, 0, 0) := by linarith
      rw [herase]
    linarith [hle, hfac]
  refine ⟨hTt, hsqT, hsqC_ge, ?_⟩
  have hsinv : 0 < 1 / Real.sqrt (M : ℝ) := by positivity
  calc scentField 16 tgtC6 (13, 13, 13)
      ≤ kw (0, 0, 0) +
        (1 - 1 / Real.sqrt (M : ℝ)) * (1 - kw (0, 0, 0)) := hST
  _ < kw (0, 0, 0) * (1 - 1 / Real.sqrt (M : ℝ)) + (1 - kw (0, 0, 0)) :=
      center_bound_lt _ _ kw_center_lt_half hsinv
  _ = scentField 16 tgtC6 (2, 2, 2) := hSC.symm

/-! ### Claim C7 -/

set_option maxRecDepth 100000 in
/-- C7 (evaluation at the failing input): with an empty target,
`distance_transform_edt(1 - target)` has no background pixel, so every
distance is measured to the marker corner `(-1,-1,-1)`; the maximum
distance is positive, the normalizing branch is taken (no division by
zero, but also no all-zero copy), and the generated field is a spurious
corner gradient: the pre-smoothing value at the origin is `7/8` and the
smoothed field at the origin is strictly positive — not the all-zero
field the claim requires. -/
theorem c7_empty_target_field :
    preField 8 emptyGrid (0, 0, 0) = 7 / 8 ∧
    0 < scentField 8 emptyGrid (0, 0, 0) := by
  have htgt : targetsOf 8 emptyGrid = ∅ := by
    simp [targetsOf, cellOcc, emptyGrid]
  have hfp : featurePts 8 emptyGrid = {(-1, -1, -1)} := by
    unfold featurePts
    rw [htgt]
    simp
  have hmem : ((-1, -1, -1) : ℤ × ℤ × ℤ) ∈ featurePts 8 emptyGrid := by
    rw [hfp]
    exact Finset.mem_singleton_self _
  have hsqd : ∀ p : Pos3, sqDist 8 emptyGrid p = sqTo p (-1, -1, -1) := by
    intro p
    refine le_antisymm (Finset.inf'_le _ hmem) (Finset.le_inf' _ _ ?_)
    intro b hb
    rw [hfp, Finset.mem_singleton] at hb
    rw [hb]
  have hsq0 : sqDist 8 emptyGrid (0, 0, 0) = 3 := by
    rw [hsqd]
    decide
  have hmax : maxSqDist 8 emptyGrid = 192 := by
    unfold maxSqDist
    apply le_antisymm
    · apply Finset.sup_le
      intro p hp
      rw [hsqd]
      rw [mem_cells] at hp
      rcases p with ⟨x, y, z⟩
      obtain ⟨hx, hy, hz⟩ := hp
      have hx' : (x : ℤ) ≤ 7 := by exact_mod_cast Nat.lt_succ_iff.mp hx
      have hy' : (y : ℤ) ≤ 7 := by exact_mod_cast Nat.lt_succ_iff.mp hy
      have hz' : (z : ℤ) ≤ 7 := by exact_mod_cast Nat.lt_succ_iff.mp hz
      have hx0 : (0 : ℤ) ≤ (x : ℤ) := Int.natCast_nonneg x
      have hy0 : (0 : ℤ) ≤ (y : ℤ) := Int.natCast_nonneg y
      have hz0 : (0 : ℤ) ≤ (z : ℤ) := Int.natCast_nonneg z
      have hb : ((x : ℤ) - (-1)) ^ 2 + ((y : ℤ) - (-1)) ^ 2 +
          ((z : ℤ) - (-1)) ^ 2 ≤ 192 := by nlinarith
      calc sqTo (x, y, z) (-1, -1, -1) ≤ (192 : ℤ).toNat :=
        Int.toNat_le_toNat hb
      _ = 192 := rfl
    · have h7 : ((7, 7, 7) : Pos3) ∈ cells 8 := (mem_cells _ _).mpr (by decide)
      have h7v : sqDist 8 emptyGrid (7, 7, 7) = 192 := by
        rw [hsqd]
        decide
      exact h7v ▸ Finset.le_sup h7
  have hpre0 : preField 8 emptyGrid (0, 0, 0) = 7 / 8 := by
    rw [preField, if_pos (by rw [hmax]; norm_num), hsq0, hmax]
    have h192 : Real.sqrt ((192 : ℕ) : ℝ) = 8 * Real.sqrt 3 := by
      rw [show ((192 : ℕ) : ℝ) = 64 * 3 by norm_num,
        Real.sqrt_mul (by norm_num : (0 : ℝ) ≤ 64),
        show (64 : ℝ) = 8 ^ 2 by norm_num,
        Real.sqrt_sq (by norm_num : (0 : ℝ) ≤ 8)]
    have h3 : Real.sqrt ((3 : ℕ) : ℝ) = Real.sqrt 3 := by norm_num
    rw [h192, h3]
    have hs3 : (0 : ℝ) < Real.sqrt 3 := Real.sqrt_pos.mpr (by norm_num)
    have hq : Real.sqrt 3 / (8 * Real.sqrt 3) = 1 / 8 := by
      rw [div_eq_iff (by positivity)]
      ring
    rw [hq]
    norm_num
  refine ⟨hpre0, ?_⟩
  unfold scentField
  apply Finset.sum_pos'
  · intro o ho
    exact mul_nonneg (le_of_lt (kw_pos o))
      (preField_nonneg 8 emptyGrid _
        (reflCell_mem 8 (0, 0, 0) o (by norm_num) (by decide) ho))
  · refine ⟨((0 : ℤ), (0 : ℤ), (0 : ℤ)), by decide, ?_⟩
    have hrc : reflCell 8 (0, 0, 0) (0, 0, 0) = (0, 0, 0) := by decide
    rw [hrc, hpre0]
    exact mul_pos (kw_pos _) (by norm_num)

/-! ### Claim C8 -/

/-- Casting back a truncated nonnegative integer cell is the identity. -/
theorem castZ_toCell (w : ℤ × ℤ × ℤ) (h1 : 0 ≤ w.1) (h2 : 0 ≤ w.2.1)
    (h3 : 0 ≤ w.2.2) : castZ (toCell w) = w := by
  rcases w with ⟨wx, wy, wz⟩
  simp only [castZ, toCell, Prod.mk.injEq]
  exact ⟨Int.toNat_of_nonneg h1, Int.toNat_of_nonneg h2,
    Int.toNat_of_nonneg h3⟩

/-- Reading a shifted grid at a shifted cell reads the original cell when
it has nonnegative coordinates, and the empty padding otherwise. -/
theorem shiftGrid_read (g : Grid3) (v w : ℤ × ℤ × ℤ)
    (h1 : 0 ≤ w.1 + v.1) (h2 : 0 ≤ w.2.1 + v.2.1) (h3 : 0 ≤ w.2.2 + v.2.2) :
    cellOcc (shiftGrid v g) (toCell (addZ w v)) =
      if 0 ≤ w.1 ∧ 0 ≤ w.2.1 ∧ 0 ≤ w.2.2 then cellOcc g (toCell w)
      else false := by
  rcases v with ⟨vx, vy, vz⟩
  rcases w with ⟨wx, wy, wz⟩
  simp only [addZ, toCell, cellOcc, shiftGrid] at *
  rw [Int.toNat_of_nonneg h1, Int.toNat_of_nonneg h2, Int.toNat_of_nonneg h3]
  simp only [add_sub_cancel_right]

/-- Amended C8: the local grid patch is translation-invariant — shifting
the agent position and the occupancy grid by the same offset, in bounds
for the position and every occupied cell, reproduces the identical grid
patch entry at every offset.  (The scent-field patch is not invariant,
see the counterexample.) -/
theorem c8_local_grid_invariant (N : ℕ) (g : Grid3) (pos : Pos3)
    (v d : ℤ × ℤ × ℤ)
    (hsupp : ∀ x y z, g x y z = true → x < N ∧ y < N ∧ z < N)
    (hshift : ∀ x y z, g x y z = true → inGridZ N (addZ (castZ (x, y, z)) v))
    (hpos : inGridZ N (addZ (castZ pos) v)) :
    localGridObs N (shiftGrid v g) (toCell (addZ (castZ pos) v)) d =
      localGridObs N g pos d := by
  have hcast : castZ (toCell (addZ (castZ pos) v)) = addZ (castZ pos) v :=
    castZ_toCell _ hpos.1 hpos.2.2.1 hpos.2.2.2.2.1
  rw [localGridObs, localGridObs, localPatch, localPatch, hcast]
  have hassoc : addZ (addZ (castZ pos) v) d = addZ (addZ (castZ pos) d) v := by
    rcases pos with ⟨px, py, pz⟩
    rcases v with ⟨vx, vy, vz⟩
    rcases d with ⟨dx, dy, dz⟩
    simp only [addZ, castZ, Prod.mk.injEq]
    refine ⟨by ring, by ring, by ring⟩
  rw [hassoc]
  have hw'1 : ∀ h : inGridZ N (addZ (addZ (castZ pos) d) v),
      0 ≤ (addZ (castZ pos) d).1 + v.1 ∧
      0 ≤ (addZ (castZ pos) d).2.1 + v.2.1 ∧
      0 ≤ (addZ (castZ pos) d).2.2 + v.2.2 :=
    fun h => ⟨h.1, h.2.2.1, h.2.2.2.2.1⟩
  by_cases hw : inGridZ N (addZ (castZ pos) d) <;>
    by_cases hw' : inGridZ N (addZ (addZ (castZ pos) d) v)
  · rw [if_pos hw, if_pos hw']
    obtain ⟨k1, k2, k3⟩ := hw'1 hw'
    have hcc : cellOcc (shiftGrid v g)
        (toCell (addZ (addZ (castZ pos) d) v)) =
        cellOcc g (toCell (addZ (castZ pos) d)) := by
      rw [shiftGrid_read g v _ k1 k2 k3,
        if_pos (⟨hw.1, hw.2.2.1, hw.2.2.2.2.1⟩ :
          0 ≤ (addZ (castZ pos) d).1 ∧ 0 ≤ (addZ (castZ pos) d).2.1 ∧
            0 ≤ (addZ (castZ pos) d).2.2)]
    rw [gridVal, gridVal, hcc]
  · rw [if_pos hw, if_neg hw']
    cases hc : cellOcc g (toCell (addZ (castZ pos) d)) with
    | false => rw [gridVal, hc, if_neg (by simp)]
    | true =>
      exfalso
      apply hw'
      have hg := hshift (toCell (addZ (castZ pos) d)).1
        (toCell (addZ (castZ pos) d)).2.1
        (toCell (addZ (castZ pos) d)).2.2 hc
      rwa [castZ_toCell _ hw.1 hw.2.2.1 hw.2.2.2.2.1] at hg
  · rw [if_neg hw, if_pos hw']
    obtain ⟨k1, k2, k3⟩ := hw'1 hw'
    rw [gridVal, shiftGrid_read g v _ k1 k2 k3]
    by_cases hnn : 0 ≤ (addZ (castZ pos) d).1 ∧
        0 ≤ (addZ (castZ pos) d).2.1 ∧ 0 ≤ (addZ (castZ pos) d).2.2
    · rw [if_pos hnn]
      cases hc : cellOcc g (toCell (addZ (castZ pos) d)) with
      | false => simp
      | true =>
        exfalso
        apply hw
        have hb := hsupp ((addZ (castZ pos) d).1.toNat)
          ((addZ (castZ pos) d).2.1.toNat)
          ((addZ (castZ pos) d).2.2.toNat) hc
        have e1 := Int.toNat_of_nonneg hnn.1
        have e2 := Int.toNat_of_nonneg hnn.2.1
        have e3 := Int.toNat_of_nonneg hnn.2.2
        refine ⟨hnn.1, ?_, hnn.2.1, ?_, hnn.2.2, ?_⟩ <;> omega
    · rw [if_neg hnn]
      simp
  · rw [if_neg hw, if_neg hw']

/-- Witness for C8's amended statement: a single block at the origin
shifted by one cell along x, observed at the patch offset `(-1,0,0)`. -/
theorem c8_witness :
    localGridObs 8 (shiftGrid (1, 0, 0) tgtC8)
      (toCell (addZ (castZ (0, 0, 0)) (1, 0, 0))) (-1, 0, 0) =
      localGridObs 8 tgtC8 (0, 0, 0) (-1, 0, 0) :=
  c8_local_grid_invariant 8 tgtC8 (0, 0, 0) (1, 0, 0) (-1, 0, 0)
    (fun x y z h => by
      simp [tgtC8] at h
      omega)
    (fun x y z h => by
      simp [tgtC8] at h
      obtain ⟨rfl, rfl, rfl⟩ := h
      decide)
    (by decide)

set_option maxRecDepth 1000000 in
set_option maxHeartbeats 1000000 in
/-- Counterexample to C8 as stated: a single-voxel target at the origin
of an 8³ grid, shifted by `(1,0,0)` (both the position `(0,0,0)` and the
voxel stay in bounds).  The scent-field component of the local
observation differs at patch offset `(-1,0,0)`: the original padding is
0 while the shifted observation reads a strictly positive scent value. -/
theorem c8_counterexample :
    cellOcc tgtC8 (0, 0, 0) = true ∧
    cellOcc tgtC8s (1, 0, 0) = true ∧
    inGridZ 8 (addZ (castZ (0, 0, 0)) (1, 0, 0)) ∧
    localScentObs 8 tgtC8 (0, 0, 0) (-1, 0, 0) = 0 ∧
    localScentObs 8 tgtC8s (1, 0, 0) (-1, 0, 0) ≠ 0 := by
  refine ⟨by decide, by decide, by decide, ?_, ?_⟩
  · rw [localScentObs, localPatch, if_neg (by decide)]
  · have haddr : addZ (castZ (1, 0, 0)) (-1, 0, 0) =
        ((0 : ℤ), (0 : ℤ), (0 : ℤ)) := by decide
    rw [localScentObs, localPatch, haddr, if_pos (by decide)]
    have htc : toCell ((0 : ℤ), (0 : ℤ), (0 : ℤ)) = ((0, 0, 0) : Pos3) := by
      decide
    rw [htc]
    have h100mem : ((1, 0, 0) : Pos3) ∈ cells 8 :=
      (mem_cells _ _).mpr (by decide)
    have h100t : cellOcc tgtC8s (1, 0, 0) = true := by decide
    have hne : (targetsOf 8 tgtC8s).Nonempty :=
      ⟨(1, 0, 0), Finset.mem_filter.mpr ⟨h100mem, h100t⟩⟩
    have htg : targetsOf 8 tgtC8s = {(1, 0, 0)} := by decide
    have hfp : featurePts 8 tgtC8s = {((1 : ℤ), (0 : ℤ), (0 : ℤ))} := by
      unfold featurePts
      rw [if_pos hne, htg]
      rfl
    have hmemf : (((1 : ℤ), (0 : ℤ), (0 : ℤ)) : ℤ × ℤ × ℤ) ∈
        featurePts 8 tgtC8s := by
      rw [hfp]
      exact Finset.mem_singleton_self _
    have hsqd : ∀ p : Pos3, sqDist 8 tgtC8s p = sqTo p (1, 0, 0) := by
      intro p
      refine le_antisymm (Finset.inf'_le _ hmemf) (Finset.le_inf' _ _ ?_)
      intro b hb
      rw [hfp, Finset.mem_singleton] at hb
      rw [hb]
    have hsq0 : sqDist 8 tgtC8s (0, 0, 0) = 1 := by
      rw [hsqd]
      decide
    have hsq777 : sqDist 8 tgtC8s (7, 7, 7) = 134 := by
      rw [hsqd]
      decide
    obtain ⟨M, hMdef⟩ : ∃ m, maxSqDist 8 tgtC8s = m := ⟨_, rfl⟩
    have h777mem : ((7, 7, 7) : Pos3) ∈ cells 8 :=
      (mem_cells _ _).mpr (by decide)
    have hM134 : 134 ≤ M :=
      hMdef ▸ hsq777 ▸ sqDist_le_max 8 tgtC8s (7, 7, 7) h777mem
    have hM : 0 < M := by omega
    have hMr1 : 1 < Real.sqrt (M : ℝ) := by
      rw [show (1 : ℝ) = Real.sqrt 1 by simp]
      apply (Real.sqrt_lt_sqrt (by norm_num))
      exact_mod_cast by omega
    have hMr : (0 : ℝ) < Real.sqrt (M : ℝ) := by positivity
    have hpre0 : preField 8 tgtC8s (0, 0, 0) =
        1 - 1 / Real.sqrt (M : ℝ) := by
      rw [preField, hMdef, if_pos hM, hsq0]
      norm_num
    have hprepos : 0 < preField 8 tgtC8s (0, 0, 0) := by
      rw [hpre0]
      have hlt : 1 / Real.sqrt (M : ℝ) < 1 := (div_lt_one hMr).mpr hMr1
      linarith
    have hspos : 0 < scentField 8 tgtC8s (0, 0, 0) := by
      unfold scentField
      apply Finset.sum_pos'
      · intro o ho
        exact mul_nonneg (le_of_lt (kw_pos o))
          (preField_nonneg 8 tgtC8s _
            (reflCell_mem 8 (0, 0, 0) o (by norm_num) (by decide) ho))
      · refine ⟨((0 : ℤ), (0 : ℤ), (0 : ℤ)), by decide, ?_⟩
        have hrc : reflCell 8 (0, 0, 0) (0, 0, 0) = (0, 0, 0) := by decide
        rw [hrc]
        exact mul_pos (kw_pos _) hprepos
    exact ne_of_gt hspos
